import Mathlib

/-!
Verification of the visit-tracking service in `src/backend/analytics.py`.

The store is the SQLite table `page_visits`, embedded as a list of rows in
insertion order.  SQL text comparison on ISO-8601 UTC timestamp strings is
Lean's lexicographic `String` order (both are byte/codepoint lexicographic on
this data).  `DATE(timestamp)` on such strings is the 10-character
`YYYY-MM-DD` prefix, and `strftime('%H', timestamp)` reads the two hour
digits at positions 11-12.
-/

/-- One row of the `page_visits` table (see `init_db`).  `id` is the
AUTOINCREMENT primary key; `timestamp` is NOT NULL; `country` and `metadata`
are never populated by the write path. -/
structure VisitRecord where
  id : Nat
  timestamp : String
  ip : Option String
  user_agent : Option String
  referrer : Option String
  path : String
  country : Option String
  metadata : Option String
deriving DecidableEq

/-- The table contents, in insertion (rowid) order. -/
abbrev Store := List VisitRecord

/-- SQLite TEXT comparison (byte-wise memcmp, which on these strings is the
lexicographic order on character codes): strict less-than. -/
def lexLt : List Char → List Char → Bool
  | [], [] => false
  | [], _ :: _ => true
  | _ :: _, [] => false
  | a :: s, b :: t => a.toNat < b.toNat || (a.toNat = b.toNat && lexLt s t)

/-- SQL `s <= t` on TEXT columns. -/
def sqlLe (s t : String) : Bool :=
  !(lexLt t.data s.data)

/-- Propositional form of `sqlLe`, used as the `ORDER BY ... ASC` relation. -/
def SqlLe (s t : String) : Prop :=
  sqlLe s t = true

instance : DecidableRel SqlLe := by
  unfold SqlLe; infer_instance

/-- SQLite `DATE(timestamp)` on an ISO-8601 UTC string: its `YYYY-MM-DD`
prefix (the first 10 characters). -/
def dateOf (s : String) : String :=
  String.mk (s.data.take 10)

/-- SQLite `CAST(strftime('%H', timestamp) AS INTEGER)` on an ISO-8601 UTC
string: the two decimal digits at character positions 11 and 12
(48 is the code of the digit character 0). -/
def hourOf (s : String) : Nat :=
  10 * ((s.data.getD 11 '0').toNat - 48) + ((s.data.getD 12 '0').toNat - 48)

/-- Shape of the hour field of a timestamp produced by the write path
(`datetime.utcnow().isoformat()`): characters 11-12 are ASCII digits forming
an hour 00..23.  Character codes: 48 is digit 0, 50 is digit 2, 51 is
digit 3, 57 is digit 9. -/
def HourWF (s : String) : Prop :=
  48 ≤ (s.data.getD 11 '0').toNat ∧ (s.data.getD 11 '0').toNat ≤ 50 ∧
  48 ≤ (s.data.getD 12 '0').toNat ∧ (s.data.getD 12 '0').toNat ≤ 57 ∧
  ((s.data.getD 11 '0').toNat = 50 → (s.data.getD 12 '0').toNat ≤ 51)

instance (s : String) : Decidable (HourWF s) := by
  unfold HourWF; infer_instance

/-- Python `ref or request.headers.get("referer", "direct")`: the `ref`
query parameter wins when present and non-empty (Python truthiness), else
the referer header when present, else the literal `"direct"`. -/
def resolveReferrer : Option String → Option String → String
  | some r, referer => if r = "" then referer.getD "direct" else r
  | none, referer => referer.getD "direct"

/-- AUTOINCREMENT id assignment: strictly greater than every id already in
the table. -/
def nextId (store : Store) : Nat :=
  (store.map VisitRecord.id).foldr max 0 + 1

/-- Inputs of one `/track` request: the server clock reading
(`datetime.utcnow().isoformat()`), the transport client address, the
`user-agent` and `referer` headers, and the `path` and `ref` query
parameters. -/
structure TrackInput where
  now : String
  client : Option String
  user_agent : Option String
  path : String
  ref : Option String
  referer : Option String
deriving DecidableEq

/-- `track_visit`: append one row.  `ip` falls back to `"unknown"` when the
client address is unavailable, `user_agent` to `""` when the header is
absent; `referrer` is resolved by `resolveReferrer`; `country` and
`metadata` are left NULL. -/
def track_visit (store : Store) (q : TrackInput) : Store :=
  store ++ [{ id := nextId store
              timestamp := q.now
              ip := some (q.client.getD "unknown")
              user_agent := some (q.user_agent.getD "")
              referrer := some (resolveReferrer q.ref q.referer)
              path := q.path
              country := none
              metadata := none }]

/-- A sequence of `/track` requests, oldest first. -/
def applyTracks (store : Store) (qs : List TrackInput) : Store :=
  qs.foldl track_visit store

/-- `SELECT COUNT(*) FROM page_visits`. -/
def total_visits (store : Store) : Nat :=
  store.length

/-- `SELECT COUNT(DISTINCT ip) FROM page_visits`: SQL `COUNT(DISTINCT _)`
counts the distinct non-NULL values. -/
def unique_visitors (store : Store) : Nat :=
  (store.filterMap VisitRecord.ip).dedup.length

/-- `SELECT COUNT(*) FROM page_visits WHERE timestamp LIKE 'YYYY-MM-DD%'`:
rows whose timestamp string starts with the given date string (the pattern
contains no wildcard or letter, so SQL `LIKE` is a plain prefix test). -/
def today_visits (store : Store) (todayStr : String) : Nat :=
  (store.filter (fun r => todayStr.data.isPrefixOf r.timestamp.data)).length

/-- `GROUP BY key ORDER BY key ASC` with `COUNT(*)` per group, over a list
of key values (one per selected row); `r` is the `ASC` order on keys. -/
def groupAsc {κ : Type} [DecidableEq κ] (r : κ → κ → Prop) [DecidableRel r]
    (keys : List κ) : List (κ × Nat) :=
  (List.insertionSort r keys.dedup).map
    (fun k => (k, (keys.filter (fun x => x = k)).length))

/-- `SELECT DATE(timestamp) as day, COUNT(*) FROM page_visits WHERE
timestamp >= cutoff GROUP BY day ORDER BY day ASC`, with `cutoff` the
ISO string of now minus 30 days. -/
def daily (store : Store) (cutoff : String) : List (String × Nat) :=
  groupAsc SqlLe ((store.filter (fun r => sqlLe cutoff r.timestamp)).map
    (fun r => dateOf r.timestamp))

/-- `SELECT CAST(strftime('%H', timestamp) AS INTEGER) as hour, COUNT(*)
FROM page_visits WHERE timestamp >= cutoff GROUP BY hour ORDER BY hour
ASC`, with `cutoff` the ISO string of now minus 7 days. -/
def hourly_heatmap (store : Store) (cutoff : String) : List (Nat × Nat) :=
  groupAsc (· ≤ ·) ((store.filter (fun r => sqlLe cutoff r.timestamp)).map
    (fun r => hourOf r.timestamp))

/-- The referrer values selected by `WHERE referrer IS NOT NULL AND
referrer != 'direct'`, one per matching row. -/
def referrerRows (store : Store) : List String :=
  (store.filterMap VisitRecord.referrer).filter (fun s => s ≠ "direct")

/-- `SELECT referrer, COUNT(*) FROM page_visits WHERE referrer IS NOT NULL
AND referrer != 'direct' GROUP BY referrer ORDER BY count DESC LIMIT 10`.
SQL leaves the order of equal-count groups unspecified; the model fixes a
deterministic one (stable sort over the grouped list). -/
def top_referrers (store : Store) : List (String × Nat) :=
  (List.insertionSort (fun a b => b.2 ≤ a.2)
    ((referrerRows store).dedup.map
      (fun k => (k, ((referrerRows store).filter (fun x => x = k)).length)))).take 10

/-- One element of the `recent_visits` response array. -/
structure RecentEntry where
  timestamp : String
  ip : Option String
  user_agent : String
  referrer : Option String
  path : String
deriving DecidableEq

/-- Python `row["user_agent"][:80] if row["user_agent"] else ""`: a NULL or
empty (falsy) stored value renders as `""`, anything else is cut to its
first 80 characters. -/
def uaDisplay : Option String → String
  | none => ""
  | some s => if s = "" then "" else String.mk (s.data.take 80)

/-- The per-row projection of the recent-visits query. -/
def projectRecent (r : VisitRecord) : RecentEntry :=
  { timestamp := r.timestamp
    ip := r.ip
    user_agent := uaDisplay r.user_agent
    referrer := r.referrer
    path := r.path }

/-- `SELECT timestamp, ip, user_agent, referrer, path FROM page_visits
ORDER BY id DESC LIMIT 20`, each row projected. -/
def recent_visits (store : Store) : List RecentEntry :=
  ((List.insertionSort (fun a b => b.id ≤ a.id) store).take 20).map
    projectRecent

/-- `reset_analytics`: `DELETE FROM page_visits`. -/
def reset_analytics (_store : Store) : Store :=
  []

/-- The `stats` object of the `/stats` response. -/
structure StatsResponse where
  total_visits : Nat
  unique_visitors : Nat
  today_visits : Nat
  daily : List (String × Nat)
  top_referrers : List (String × Nat)
  hourly_heatmap : List (Nat × Nat)
  recent_visits : List RecentEntry
deriving DecidableEq

/-- `get_stats`, parameterised by the three clock readings it takes
(`utcnow()` and the 30-day and 7-day cutoffs computed from it). -/
def get_stats (store : Store) (now cutoff30 cutoff7 : String) :
    StatsResponse :=
  { total_visits := total_visits store
    unique_visitors := unique_visitors store
    today_visits := today_visits store (dateOf now)
    daily := daily store cutoff30
    top_referrers := top_referrers store
    hourly_heatmap := hourly_heatmap store cutoff7
    recent_visits := recent_visits store }

instance : IsTotal (String × Nat) (fun a b => b.2 ≤ a.2) :=
  ⟨fun a b => Nat.le_total b.2 a.2⟩

instance : IsTrans (String × Nat) (fun a b => b.2 ≤ a.2) :=
  ⟨fun _ _ _ h₁ h₂ => Nat.le_trans h₂ h₁⟩

instance : IsTotal VisitRecord (fun a b => b.id ≤ a.id) :=
  ⟨fun a b => Nat.le_total b.id a.id⟩

instance : IsTrans VisitRecord (fun a b => b.id ≤ a.id) :=
  ⟨fun _ _ _ h₁ h₂ => Nat.le_trans h₂ h₁⟩

instance : IsAntisymm VisitRecord (fun a b => b.id < a.id) :=
  ⟨fun _ _ h h' => absurd (Nat.lt_trans h h') (Nat.lt_irrefl _)⟩

/-- A small concrete store used by the witnesses. -/
def exampleStore : Store :=
  [{ id := 1, timestamp := "2026-10-12T09:00:00", ip := some "1.2.3.4",
     user_agent := some "Mozilla", referrer := some "x.com", path := "/",
     country := none, metadata := none },
   { id := 2, timestamp := "2026-10-11T23:59:59", ip := none,
     user_agent := none, referrer := some "direct", path := "/a",
     country := none, metadata := none }]

/-- The referrer scenario of the spec: six visits whose `ref` query values
are direct, direct, x.com, x.com, x.com, y.com, into an empty store. -/
def scenarioRefs : List TrackInput :=
  ["direct", "direct", "x.com", "x.com", "x.com", "y.com"].map
    (fun s => { now := "2026-10-12T00:00:00", client := none,
                user_agent := none, path := "/", ref := some s,
                referer := none })

/-- A `/track` request carrying no `ref` parameter and no referer header. -/
def noRefQuery : TrackInput :=
  { now := "2026-10-12T00:00:00", client := none, user_agent := none,
    path := "/", ref := none, referer := none }

/-- A row whose stored user_agent is the empty string. -/
def uaEmptyRow : VisitRecord :=
  { id := 3, timestamp := "2026-10-12T00:00:00", ip := none,
    user_agent := some "", referrer := none, path := "/",
    country := none, metadata := none }

/-- Twenty-one sequential `/track` requests with distinct timestamps. -/
def scenario21 : List TrackInput :=
  (List.range 21).map (fun i =>
    { now := toString (i + 1), client := none, user_agent := none,
      path := "/", ref := none, referer := none })

theorem lexLt_irrefl (l : List Char) : lexLt l l = false := by
  induction l with
  | nil => rfl
  | cons a t ih => simp [lexLt, ih]

theorem lexLt_asymm : ∀ (l₁ l₂ : List Char),
    lexLt l₁ l₂ = true → lexLt l₂ l₁ = false
  | [], [] => by simp [lexLt]
  | [], _ :: _ => by simp [lexLt]
  | _ :: _, [] => by simp [lexLt]
  | a :: s, b :: t => by
    simp only [lexLt, Bool.or_eq_true, Bool.and_eq_true, decide_eq_true_eq,
      Bool.or_eq_false_iff, Bool.and_eq_false_iff, decide_eq_false_iff_not]
    rintro (h | ⟨he, ht⟩)
    · exact ⟨by omega, Or.inl (by omega)⟩
    · exact ⟨by omega, Or.inr (lexLt_asymm s t ht)⟩

theorem lexLt_trans : ∀ (l₁ l₂ l₃ : List Char),
    lexLt l₁ l₂ = true → lexLt l₂ l₃ = true → lexLt l₁ l₃ = true
  | [], l₂, [] => by cases l₂ <;> simp [lexLt]
  | [], _, _ :: _ => by simp [lexLt]
  | _ :: _, l₂, [] => by
    cases l₂ <;> simp [lexLt]
  | a :: s, l₂, c :: u => by
    cases l₂ with
    | nil => simp [lexLt]
    | cons b t =>
      simp only [lexLt, Bool.or_eq_true, Bool.and_eq_true, decide_eq_true_eq]
      rintro (h₁ | ⟨he₁, ht₁⟩) (h₂ | ⟨he₂, ht₂⟩)
      · exact Or.inl (by omega)
      · exact Or.inl (by omega)
      · exact Or.inl (by omega)
      · exact Or.inr ⟨by omega, lexLt_trans s t u ht₁ ht₂⟩

theorem lexLt_connex : ∀ (l₁ l₂ : List Char),
    l₁ ≠ l₂ → lexLt l₁ l₂ = true ∨ lexLt l₂ l₁ = true
  | [], [] => by simp
  | [], _ :: _ => by simp [lexLt]
  | _ :: _, [] => by simp [lexLt]
  | a :: s, b :: t => by
    intro hne
    by_cases hab : a = b
    · subst hab
      have hst : s ≠ t := by intro h; exact hne (by rw [h])
      rcases lexLt_connex s t hst with h | h
      · exact Or.inl (by simp [lexLt, h])
      · exact Or.inr (by simp [lexLt, h])
    · have : a.toNat ≠ b.toNat := by
        intro h
        exact hab (Char.eq_of_val_eq (UInt32.eq_of_toBitVec_eq
          (BitVec.eq_of_toNat_eq h)))
      rcases Nat.lt_or_ge a.toNat b.toNat with h | h
      · exact Or.inl (by simp [lexLt]; omega)
      · exact Or.inr (by simp [lexLt]; omega)

theorem lexLt_of_take : ∀ (n : Nat) {l₁ l₂ : List Char},
    lexLt (l₁.take n) (l₂.take n) = true → lexLt l₁ l₂ = true
  | 0, l₁, l₂ => by simp [lexLt]
  | n + 1, [], [] => by simp [lexLt]
  | n + 1, [], _ :: _ => by simp [lexLt]
  | n + 1, _ :: _, [] => by simp [lexLt]
  | n + 1, a :: s, b :: t => by
    simp only [List.take_succ_cons, lexLt, Bool.or_eq_true, Bool.and_eq_true,
      decide_eq_true_eq]
    rintro (h | ⟨he, ht⟩)
    · exact Or.inl h
    · exact Or.inr ⟨he, lexLt_of_take n ht⟩

theorem sqlLe_iff {s t : String} : SqlLe s t ↔ lexLt t.data s.data = false := by
  simp [SqlLe, sqlLe]

theorem string_eq_of_data_eq {s t : String} (h : s.data = t.data) : s = t :=
  congrArg String.mk h

instance : IsTrans String SqlLe := by
  refine ⟨fun a b c hab hbc => ?_⟩
  rw [sqlLe_iff] at *
  by_contra hca
  have hca' : lexLt c.data a.data = true := by
    cases h : lexLt c.data a.data
    · exact absurd h hca
    · rfl
  by_cases he : a.data = b.data
  · rw [he] at hca'; rw [hca'] at hbc; cases hbc
  · rcases lexLt_connex a.data b.data he with h | h
    · have := lexLt_trans c.data a.data b.data hca' h
      rw [this] at hbc; cases hbc
    · rw [h] at hab; cases hab

instance : IsTotal String SqlLe := by
  refine ⟨fun a b => ?_⟩
  rw [sqlLe_iff, sqlLe_iff]
  cases h : lexLt b.data a.data
  · exact Or.inl rfl
  · exact Or.inr (lexLt_asymm b.data a.data h)

instance : IsAntisymm String SqlLe := by
  refine ⟨fun a b hab hba => ?_⟩
  rw [sqlLe_iff] at hab hba
  by_cases he : a.data = b.data
  · exact string_eq_of_data_eq he
  · rcases lexLt_connex a.data b.data he with h | h
    · rw [h] at hba; cases hba
    · rw [h] at hab; cases hab

theorem sqlLe_dateOf {s t : String} (h : SqlLe s t) :
    SqlLe (dateOf s) (dateOf t) := by
  rw [sqlLe_iff] at h ⊢
  show lexLt (t.data.take 10) (s.data.take 10) = false
  cases hc : lexLt (t.data.take 10) (s.data.take 10)
  · rfl
  · rw [lexLt_of_take 10 hc] at h; cases h

theorem hourOf_le_23 {s : String} (h : HourWF s) : hourOf s ≤ 23 := by
  obtain ⟨h1, h2, h3, h4, h5⟩ := h
  unfold hourOf
  omega

theorem isPrefixOf_eq_take : ∀ (l₁ l₂ : List Char),
    l₁.isPrefixOf l₂ = true ↔ l₂.take l₁.length = l₁
  | [], l₂ => by simp [List.isPrefixOf]
  | a :: t, [] => by simp [List.isPrefixOf]
  | a :: t, b :: u => by
    simp only [List.isPrefixOf, Bool.and_eq_true, beq_iff_eq, List.length_cons,
      List.take_succ_cons, List.cons.injEq, isPrefixOf_eq_take t u]
    constructor
    · rintro ⟨rfl, h⟩; exact ⟨rfl, h⟩
    · rintro ⟨rfl, h⟩; exact ⟨rfl, h⟩

theorem sum_map_add_nat {κ : Type} (L : List κ) (f g : κ → Nat) :
    (L.map (fun x => f x + g x)).sum = (L.map f).sum + (L.map g).sum := by
  induction L with
  | nil => rfl
  | cons a t ih => simp only [List.map_cons, List.sum_cons, ih]; omega

theorem sum_map_indicator {κ : Type} [DecidableEq κ] (a : κ) :
    ∀ (L : List κ), L.Nodup → a ∈ L →
      (L.map (fun k => if a = k then 1 else 0)).sum = 1 := by
  intro L
  induction L with
  | nil => intro _ h; cases h
  | cons b u ih =>
    intro hnd hmem
    rcases List.mem_cons.mp hmem with rfl | hmem'
    · have hnotin : a ∉ u := (List.nodup_cons.mp hnd).1
      have hz : (u.map (fun k => if a = k then 1 else 0)).sum = 0 := by
        apply List.sum_eq_zero
        intro x hx
        obtain ⟨k, hk, rfl⟩ := List.mem_map.mp hx
        simp only [ite_eq_right_iff]
        intro hak; exact absurd (hak ▸ hk) hnotin
      simp [hz]
    · have hba : a ≠ b := by
        rintro rfl; exact (List.nodup_cons.mp hnd).1 hmem'
      simp [ih (List.nodup_cons.mp hnd).2 hmem', hba]

theorem sum_filter_length {κ : Type} [DecidableEq κ] (L : List κ)
    (hnd : L.Nodup) :
    ∀ (keys : List κ), (∀ x ∈ keys, x ∈ L) →
      (L.map (fun k => (keys.filter (fun x => x = k)).length)).sum
        = keys.length := by
  intro keys
  induction keys with
  | nil =>
    intro _
    have hz : ∀ x ∈ L.map (fun k =>
        ((List.nil : List κ).filter (fun x => x = k)).length), x = 0 := by
      simp
    simp [List.sum_eq_zero hz]
  | cons a t ih =>
    intro hsub
    have ha : a ∈ L := hsub a (List.mem_cons_self a t)
    have ht : ∀ x ∈ t, x ∈ L := fun x hx => hsub x (List.mem_cons_of_mem a hx)
    have hstep : L.map (fun k => ((a :: t).filter (fun x => x = k)).length)
        = L.map (fun k =>
            (if a = k then 1 else 0) + (t.filter (fun x => x = k)).length) := by
      apply List.map_congr_left
      intro k _
      by_cases hak : a = k
      · simp [List.filter_cons, hak]; omega
      · simp [List.filter_cons, hak]
    rw [hstep, sum_map_add_nat, sum_map_indicator a L hnd ha, ih ht]
    simp [Nat.add_comm]

theorem groupAsc_keys {κ : Type} [DecidableEq κ] (r : κ → κ → Prop)
    [DecidableRel r] (keys : List κ) :
    (groupAsc r keys).map Prod.fst = List.insertionSort r keys.dedup := by
  simp [groupAsc, List.map_map, Function.comp_def]

theorem groupAsc_mem {κ : Type} [DecidableEq κ] (r : κ → κ → Prop)
    [DecidableRel r] (keys : List κ) (k : κ) :
    k ∈ (groupAsc r keys).map Prod.fst ↔ k ∈ keys := by
  rw [groupAsc_keys, (List.perm_insertionSort r keys.dedup).mem_iff]
  exact List.mem_dedup

theorem groupAsc_elem {κ : Type} [DecidableEq κ] (r : κ → κ → Prop)
    [DecidableRel r] (keys : List κ) :
    ∀ p ∈ groupAsc r keys,
      p.1 ∈ keys ∧ p.2 = (keys.filter (fun x => x = p.1)).length ∧ 0 < p.2 := by
  intro p hp
  obtain ⟨k, hk, rfl⟩ := List.mem_map.mp hp
  have hk' : k ∈ keys := by
    rw [(List.perm_insertionSort r keys.dedup).mem_iff] at hk
    exact List.mem_dedup.mp hk
  refine ⟨hk', rfl, ?_⟩
  exact List.length_pos_of_mem (List.mem_filter.mpr ⟨hk', by simp⟩)

theorem groupAsc_sorted {κ : Type} [DecidableEq κ] (r : κ → κ → Prop)
    [DecidableRel r] [IsTotal κ r] [IsTrans κ r] (keys : List κ) :
    ((groupAsc r keys).map Prod.fst).Pairwise (fun a b => r a b ∧ a ≠ b) := by
  rw [groupAsc_keys]
  have hs := List.sorted_insertionSort r keys.dedup
  have hn : (List.insertionSort r keys.dedup).Nodup :=
    ((List.perm_insertionSort r keys.dedup).nodup_iff).mpr (List.nodup_dedup keys)
  exact List.Pairwise.and hs hn

theorem groupAsc_sum {κ : Type} [DecidableEq κ] (r : κ → κ → Prop)
    [DecidableRel r] (keys : List κ) :
    ((groupAsc r keys).map Prod.snd).sum = keys.length := by
  have h1 : (groupAsc r keys).map Prod.snd
      = (List.insertionSort r keys.dedup).map
          (fun k => (keys.filter (fun x => x = k)).length) := by
    simp [groupAsc, List.map_map, Function.comp_def]
  have hperm : ((List.insertionSort r keys.dedup).map
        (fun k => (keys.filter (fun x => x = k)).length)).Perm
      (keys.dedup.map (fun k => (keys.filter (fun x => x = k)).length)) :=
    (List.perm_insertionSort r keys.dedup).map _
  rw [h1, hperm.sum_eq]
  exact sum_filter_length keys.dedup (List.nodup_dedup keys) keys
    (fun x hx => List.mem_dedup.mpr hx)

theorem bool_eq_decide {b : Bool} {p : Prop} [Decidable p]
    (h : b = true ↔ p) : b = decide p := by
  by_cases hp : p
  · simp [hp, h.mpr hp]
  · cases hb : b
    · simp [hp]
    · exact absurd (h.mp hb) hp

theorem insertionSort_eq_reverse (store : Store)
    (hids : store.Pairwise (fun a b => a.id < b.id)) :
    List.insertionSort (fun a b => b.id ≤ a.id) store = store.reverse := by
  have hrev : store.reverse.Pairwise (fun a b => b.id < a.id) :=
    List.pairwise_reverse.mpr hids
  have hperm : (List.insertionSort (fun a b => b.id ≤ a.id) store).Perm
      store.reverse :=
    (List.perm_insertionSort _ store).trans store.reverse_perm.symm
  have hsorted : (List.insertionSort (fun a b => b.id ≤ a.id) store).Pairwise
      (fun a b => b.id < a.id) := by
    have hs := List.sorted_insertionSort (fun a b => b.id ≤ a.id) store
    have hne : (List.insertionSort (fun a b => b.id ≤ a.id) store).Pairwise
        (fun a b => a.id ≠ b.id) := by
      refine (List.Perm.pairwise_iff (fun h => Ne.symm h) hperm).mpr ?_
      exact hrev.imp (fun h => Nat.ne_of_gt h)
    exact (List.Pairwise.and hs hne).imp
      (fun h => Nat.lt_of_le_of_ne h.1 (fun e => h.2 e.symm))
  exact List.eq_of_perm_of_sorted hperm hsorted hrev

theorem applyTracks_length (qs : List TrackInput) :
    ∀ store : Store, (applyTracks store qs).length = store.length + qs.length := by
  induction qs with
  | nil => intro store; simp [applyTracks]
  | cons q t ih =>
    intro store
    have h1 : applyTracks store (q :: t) = applyTracks (track_visit store q) t := rfl
    rw [h1, ih (track_visit store q)]
    simp [track_visit]
    omega

/-- C1: a batch of N appends through the write path grows `total_visits` by
exactly N; in particular, starting from a reset store (and with no reset in
between), `total_visits` after N appends equals N. -/
theorem total_visits_counts_appends (store store0 : Store)
    (qs : List TrackInput) :
    total_visits (applyTracks store qs) = total_visits store + qs.length
    ∧ total_visits (applyTracks (reset_analytics store0) qs) = qs.length := by
  refine ⟨applyTracks_length qs store, ?_⟩
  simpa [reset_analytics, total_visits] using applyTracks_length qs []

/-- C9: after a reset, a stats query reports zero total visits and empty
daily, top-referrer, hourly-heatmap and recent-visits results (and zero
unique-visitor and today counts), whatever the prior store contents and the
current time. -/
theorem reset_clears_stats (store : Store) (now cutoff30 cutoff7 : String) :
    get_stats (reset_analytics store) now cutoff30 cutoff7
      = { total_visits := 0
          unique_visitors := 0
          today_visits := 0
          daily := []
          top_referrers := []
          hourly_heatmap := []
          recent_visits := [] } := rfl

/-- C7: `today_visits` counts the rows whose timestamp string starts with
the current UTC date — a string-prefix match, which (the date string having
its fixed 10-character length) selects exactly the rows whose
`DATE(timestamp)` equals today's date, not a rolling 24-hour window. -/
theorem today_visits_date_match (store : Store) (now : String)
    (hlen : (dateOf now).data.length = 10) :
    today_visits store (dateOf now)
      = (store.filter (fun r => dateOf r.timestamp = dateOf now)).length := by
  unfold today_visits
  congr 1
  apply List.filter_congr
  intro r _
  apply bool_eq_decide
  rw [isPrefixOf_eq_take, hlen]
  constructor
  · intro h; exact string_eq_of_data_eq h
  · intro h; exact congrArg String.data h

theorem today_visits_date_match_witness :
    (dateOf "2026-10-12T10:44:00").data.length = 10
    ∧ today_visits exampleStore (dateOf "2026-10-12T10:44:00")
        = (exampleStore.filter
            (fun r => dateOf r.timestamp = dateOf "2026-10-12T10:44:00")).length :=
  ⟨by decide, today_visits_date_match exampleStore "2026-10-12T10:44:00" (by decide)⟩

/-- C3: the daily breakdown lists exactly the UTC dates of the rows in the
30-day window (cutoff ≤ timestamp), in strictly ascending date order with
zero-visit days absent, each count matching a direct recount of that date's
rows in the window; and, provided every stored timestamp is at most the
current time (which the write path guarantees, stamping rows with the
then-current clock), every listed date lies between the cutoff's date and
today's date. -/
theorem daily_breakdown_window (store : Store) (cutoff now : String)
    (hnow : ∀ r ∈ store, SqlLe r.timestamp now) :
    (∀ d, d ∈ (daily store cutoff).map Prod.fst ↔
        ∃ r ∈ store, SqlLe cutoff r.timestamp ∧ dateOf r.timestamp = d)
    ∧ ((daily store cutoff).map Prod.fst).Pairwise (fun a b => SqlLe a b ∧ a ≠ b)
    ∧ ∀ p ∈ daily store cutoff,
        p.2 = ((store.filter (fun r => sqlLe cutoff r.timestamp)).filter
            (fun r => dateOf r.timestamp = p.1)).length
        ∧ 0 < p.2 ∧ SqlLe (dateOf cutoff) p.1 ∧ SqlLe p.1 (dateOf now) := by
  have hd : daily store cutoff
      = groupAsc SqlLe ((store.filter (fun r => sqlLe cutoff r.timestamp)).map
          (fun r => dateOf r.timestamp)) := rfl
  refine ⟨?_, ?_, ?_⟩
  · intro d
    rw [hd, groupAsc_mem]
    constructor
    · intro h
      obtain ⟨r, hr, hdr⟩ := List.mem_map.mp h
      obtain ⟨hrs, hle⟩ := List.mem_filter.mp hr
      exact ⟨r, hrs, hle, hdr⟩
    · rintro ⟨r, hrs, hle, hdr⟩
      exact List.mem_map.mpr ⟨r, List.mem_filter.mpr ⟨hrs, hle⟩, hdr⟩
  · rw [hd]; exact groupAsc_sorted SqlLe _
  · intro p hp
    rw [hd] at hp
    obtain ⟨hmem, hcount, hpos⟩ := groupAsc_elem SqlLe _ p hp
    obtain ⟨r, hr, hdr⟩ := List.mem_map.mp hmem
    obtain ⟨hrs, hle⟩ := List.mem_filter.mp hr
    refine ⟨?_, hpos, ?_, ?_⟩
    · rw [hcount, List.filter_map, List.length_map]
      rfl
    · exact hdr ▸ sqlLe_dateOf hle
    · exact hdr ▸ sqlLe_dateOf (hnow r hrs)

theorem daily_breakdown_window_witness :
    (∀ r ∈ exampleStore, SqlLe r.timestamp "2026-10-12T10:44:00")
    ∧ ((daily exampleStore "2026-09-12T10:44:00").map Prod.fst).Pairwise
        (fun a b => SqlLe a b ∧ a ≠ b) :=
  ⟨by decide, (daily_breakdown_window exampleStore "2026-09-12T10:44:00"
      "2026-10-12T10:44:00" (by decide)).2.1⟩

/-- C5: every hour in the heatmap is at most 23 (given the write-path shape
of stored timestamps), the hours are strictly ascending with zero-count
hours absent, every emitted count is positive, and the counts sum to the
number of rows in the 7-day window (cutoff ≤ timestamp). -/
theorem hourly_heatmap_window (store : Store) (cutoff : String)
    (hwf : ∀ r ∈ store, HourWF r.timestamp) :
    (∀ p ∈ hourly_heatmap store cutoff, p.1 ≤ 23)
    ∧ ((hourly_heatmap store cutoff).map Prod.fst).Pairwise (· < ·)
    ∧ (∀ p ∈ hourly_heatmap store cutoff, 0 < p.2)
    ∧ ((hourly_heatmap store cutoff).map Prod.snd).sum
        = (store.filter (fun r => sqlLe cutoff r.timestamp)).length := by
  have hd : hourly_heatmap store cutoff
      = groupAsc (· ≤ ·) ((store.filter (fun r => sqlLe cutoff r.timestamp)).map
          (fun r => hourOf r.timestamp)) := rfl
  refine ⟨?_, ?_, ?_, ?_⟩
  · intro p hp
    rw [hd] at hp
    obtain ⟨hmem, _, _⟩ := groupAsc_elem (· ≤ ·) _ p hp
    obtain ⟨r, hr, hdr⟩ := List.mem_map.mp hmem
    obtain ⟨hrs, _⟩ := List.mem_filter.mp hr
    exact hdr ▸ hourOf_le_23 (hwf r hrs)
  · rw [hd]
    exact (groupAsc_sorted (κ := Nat) (· ≤ ·) _).imp
      (fun h => Nat.lt_of_le_of_ne h.1 h.2)
  · intro p hp
    rw [hd] at hp
    exact (groupAsc_elem (· ≤ ·) _ p hp).2.2
  · rw [hd, groupAsc_sum, List.length_map]

theorem hourly_heatmap_window_witness :
    (∀ r ∈ exampleStore, HourWF r.timestamp)
    ∧ ((hourly_heatmap exampleStore "2026-10-05T10:44:00").map Prod.snd).sum
        = (exampleStore.filter
            (fun r => sqlLe "2026-10-05T10:44:00" r.timestamp)).length :=
  ⟨by decide, (hourly_heatmap_window exampleStore "2026-10-05T10:44:00"
      (by decide)).2.2.2⟩

/-- C2: `unique_visitors` is the number of distinct non-NULL ip values over
all rows (the cardinality of the distinct-IP set); it is invariant under
any permutation of the store, and a row with a NULL ip adds no visitor
group (NULL ips form at most one group -- here zero -- under SQL
`COUNT(DISTINCT ip)`). -/
theorem unique_visitors_distinct_ips (l l' : Store) (hperm : l.Perm l') :
    unique_visitors l = unique_visitors l'
    ∧ unique_visitors l = (l.filterMap VisitRecord.ip).toFinset.card
    ∧ ∀ r : VisitRecord, r.ip = none →
        unique_visitors (r :: l) = unique_visitors l := by
  refine ⟨?_, ?_, ?_⟩
  · exact ((hperm.filterMap VisitRecord.ip).dedup).length_eq
  · exact (List.card_toFinset _).symm
  · intro r hr
    unfold unique_visitors
    rw [List.filterMap_cons_none hr]

theorem unique_visitors_distinct_ips_witness :
    exampleStore.Perm exampleStore.reverse
    ∧ unique_visitors exampleStore = unique_visitors exampleStore.reverse :=
  ⟨(List.reverse_perm exampleStore).symm,
    (unique_visitors_distinct_ips exampleStore exampleStore.reverse
      (List.reverse_perm exampleStore).symm).1⟩

theorem length_filter_filterMap {α β : Type} (f : α → Option β)
    (q : β → Bool) : ∀ l : List α,
    ((l.filterMap f).filter q).length
      = (l.filter (fun a => (f a).elim false q)).length := by
  intro l
  induction l with
  | nil => rfl
  | cons a t ih =>
    cases hfa : f a with
    | none => simp [List.filterMap_cons, hfa, List.filter_cons, ih]
    | some b =>
      by_cases hq : q b
      · simp [List.filterMap_cons, hfa, List.filter_cons, hq, ih]
      · simp [List.filterMap_cons, hfa, List.filter_cons, hq, ih]

theorem elim_eq_decide_some (o : Option String) (v : String) :
    o.elim false (fun s => decide (s = v)) = decide (o = some v) := by
  cases o <;> simp

theorem top_referrers_elem (store : Store) :
    ∀ p ∈ top_referrers store,
      p.1 ∈ referrerRows store
      ∧ p.2 = ((referrerRows store).filter (fun x => x = p.1)).length := by
  intro p hp
  unfold top_referrers at hp
  have hp' := List.mem_of_mem_take hp
  rw [(List.perm_insertionSort _ _).mem_iff] at hp'
  obtain ⟨k, hk, rfl⟩ := List.mem_map.mp hp'
  exact ⟨List.mem_dedup.mp hk, rfl⟩

/-- C4: every top-referrers entry has a non-"direct" (and non-NULL)
referrer coming from some stored row and counts exactly the rows with that
referrer string, the list is sorted descending by count and holds at most
10 entries; and the six-record scenario on an empty store yields
[(x.com, 3), (y.com, 1)]. -/
theorem top_referrers_grouping (store : Store) :
    (∀ p ∈ top_referrers store, p.1 ≠ "direct"
        ∧ (∃ r ∈ store, r.referrer = some p.1)
        ∧ p.2 = (store.filter (fun r => r.referrer = some p.1)).length)
    ∧ (top_referrers store).length ≤ 10
    ∧ (top_referrers store).Pairwise (fun a b => b.2 ≤ a.2)
    ∧ top_referrers (applyTracks [] scenarioRefs)
        = [("x.com", 3), ("y.com", 1)] := by
  refine ⟨?_, ?_, ?_, by decide⟩
  · intro p hp
    obtain ⟨hmem, hcount⟩ := top_referrers_elem store p hp
    obtain ⟨hmem', hnd⟩ := List.mem_filter.mp hmem
    have hne : p.1 ≠ "direct" := by simpa using hnd
    refine ⟨hne, ?_, ?_⟩
    · obtain ⟨r, hr, hrr⟩ := List.mem_filterMap.mp hmem'
      exact ⟨r, hr, hrr⟩
    · rw [hcount]
      unfold referrerRows
      rw [List.filter_filter]
      have hpt : ∀ a ∈ store.filterMap VisitRecord.referrer,
          (decide (a = p.1) && decide (a ≠ "direct")) = decide (a = p.1) := by
        intro a _
        by_cases hap : a = p.1
        · subst hap; simp [hne]
        · simp [hap]
      rw [List.filter_congr hpt, length_filter_filterMap]
      congr 1
      apply List.filter_congr
      intro r _
      exact elim_eq_decide_some r.referrer p.1
  · exact List.length_take_le 10 _
  · exact List.Pairwise.sublist (List.take_sublist 10 _)
      (List.sorted_insertionSort _ _)

theorem top_referrers_grouping_witness :
    ("x.com", 3) ∈ top_referrers (applyTracks [] scenarioRefs)
    ∧ ("x.com" ≠ "direct"
        ∧ (∃ r ∈ applyTracks [] scenarioRefs, r.referrer = some "x.com")
        ∧ 3 = ((applyTracks [] scenarioRefs).filter
            (fun r => r.referrer = some "x.com")).length) :=
  ⟨by decide,
    (top_referrers_grouping (applyTracks [] scenarioRefs)).1
      ("x.com", 3) (by decide)⟩

theorem uaDisplay_length_le (o : Option String) :
    (uaDisplay o).data.length ≤ 80 := by
  cases o with
  | none => simp [uaDisplay]
  | some s =>
    by_cases h : s = ""
    · simp [uaDisplay, h]
    · show (if s = "" then "" else String.mk (s.data.take 80)).data.length ≤ 80
      rw [if_neg h]
      exact List.length_take_le 80 s.data

/-- C6: under the id invariant the write path maintains (ids strictly
increasing along the store), recent_visits is exactly the store reversed --
most recently inserted first, by descending id -- truncated to 20 rows and
projected, so it has at most 20 entries, each with user_agent cut to at
most 80 characters; and after 21 sequential inserts into an empty store it
returns the latest 20 newest-first, excluding the earliest record. -/
theorem recent_visits_ordering (store : Store)
    (hids : store.Pairwise (fun a b => a.id < b.id)) :
    recent_visits store = (store.reverse.take 20).map projectRecent
    ∧ (recent_visits store).length ≤ 20
    ∧ (∀ e ∈ recent_visits store, e.user_agent.data.length ≤ 80)
    ∧ (recent_visits (applyTracks [] scenario21)).map RecentEntry.timestamp
        = (List.range 20).map (fun i => toString (21 - i))
    ∧ toString 1 ∉ (recent_visits (applyTracks [] scenario21)).map
        RecentEntry.timestamp := by
  refine ⟨?_, ?_, ?_,
    by set_option maxRecDepth 8192 in decide,
    by set_option maxRecDepth 8192 in decide⟩
  · unfold recent_visits
    rw [insertionSort_eq_reverse store hids]
  · unfold recent_visits
    rw [List.length_map]
    exact List.length_take_le 20 _
  · intro e he
    unfold recent_visits at he
    obtain ⟨r, _, rfl⟩ := List.mem_map.mp he
    exact uaDisplay_length_le r.user_agent

theorem recent_visits_ordering_witness :
    exampleStore.Pairwise (fun a b => a.id < b.id)
    ∧ recent_visits exampleStore
        = (exampleStore.reverse.take 20).map projectRecent :=
  ⟨by decide, (recent_visits_ordering exampleStore (by decide)).1⟩

/-- C8: the record appended by a `/track` request stores as referrer the
`ref` query parameter when it is present and non-empty, else the inbound
referer header when present, else the literal "direct". -/
theorem referrer_resolution (store : Store) (q : TrackInput) :
    (track_visit store q = store ++
        [{ id := nextId store, timestamp := q.now,
           ip := some (q.client.getD "unknown"),
           user_agent := some (q.user_agent.getD ""),
           referrer := some (resolveReferrer q.ref q.referer),
           path := q.path, country := none, metadata := none }])
    ∧ (∀ s, q.ref = some s → s ≠ "" → resolveReferrer q.ref q.referer = s)
    ∧ ((q.ref = none ∨ q.ref = some "") →
        ∀ s, q.referer = some s → resolveReferrer q.ref q.referer = s)
    ∧ ((q.ref = none ∨ q.ref = some "") → q.referer = none →
        resolveReferrer q.ref q.referer = "direct") := by
  refine ⟨rfl, ?_, ?_, ?_⟩
  · intro s href hs
    rw [href]
    simp [resolveReferrer, hs]
  · rintro (h | h) s hsref <;> rw [h, hsref] <;> simp [resolveReferrer]
  · rintro (h | h) hnone <;> rw [h, hnone] <;> simp [resolveReferrer]

theorem referrer_resolution_witness :
    ((none : Option String) = none ∨ (none : Option String) = some "")
    ∧ resolveReferrer none none = "direct" :=
  ⟨Or.inl rfl, (referrer_resolution [] noRefQuery).2.2.2 (Or.inl rfl) rfl⟩

/-- C10: every recent_visits entry is the projection of a stored row, whose
user_agent field is always a string (never null); a row whose stored
user_agent is NULL -- or the empty string, the other falsy value -- renders
as "". -/
theorem recent_visits_ua_never_null (store : Store) :
    (∀ e ∈ recent_visits store, ∃ r, r ∈ store ∧ e = projectRecent r)
    ∧ (∀ r : VisitRecord, r.user_agent = none ∨ r.user_agent = some "" →
        (projectRecent r).user_agent = "") := by
  constructor
  · intro e he
    unfold recent_visits at he
    obtain ⟨r, hr, rfl⟩ := List.mem_map.mp he
    have hr' : r ∈ List.insertionSort (fun a b => b.id ≤ a.id) store :=
      List.mem_of_mem_take hr
    rw [(List.perm_insertionSort _ _).mem_iff] at hr'
    exact ⟨r, hr', rfl⟩
  · rintro r (h | h) <;> simp [projectRecent, uaDisplay, h]

theorem recent_visits_ua_never_null_witness :
    (uaEmptyRow.user_agent = none ∨ uaEmptyRow.user_agent = some "")
    ∧ (projectRecent uaEmptyRow).user_agent = "" :=
  ⟨Or.inr rfl,
    (recent_visits_ua_never_null exampleStore).2 uaEmptyRow (Or.inr rfl)⟩
